import Mathlib

/-!
Shallow embedding of the PVTS emitter of protoview (`_emit_pvts` and its
helpers in protoview.py), together with theorems settling the claims about
its trace correlation and emission behaviour.

Strings are modelled as `List Char`; each dissector row is a list of field
strings.  Python semantics are mirrored operation by operation:
`str.strip`, `str.split`, truthiness of strings and dicts, dict keys that
are popped when `None`, and `int()` raising on unparseable input
(modelled as `Except Unit`).  Exotic numerals (non-ASCII digits) accepted
by Python's `int` are out of scope of the model; underscore-grouped
decimal literals are supported.  Timestamp rendering is not modelled: the
raw frame-time field is carried through unchanged.
-/

namespace PV

abbrev Str := List Char

def str (s : String) : Str := s.toList

/-- Python whitespace for `str.strip()` / `str.lstrip()`. -/
def pyIsSpace (c : Char) : Bool :=
  c = ' ' || c = '\t' || c = '\n' || c = '\r' || c = '\x0b' || c = '\x0c'

/-- `s.strip(chars)` generalised over a character predicate. -/
def stripP (p : Char → Bool) (s : Str) : Str :=
  ((s.dropWhile p).reverse.dropWhile p).reverse

def pyStrip (s : Str) : Str := stripP pyIsSpace s

def pyLstrip (s : Str) : Str := s.dropWhile pyIsSpace

def lowerStr (s : Str) : Str := s.map Char.toLower

/-- Python `a or b` on strings. -/
def pyOr (a b : Str) : Str := if a.isEmpty then b else a

/-- `s.split(c, 1)` when `c` occurs in `s`; `(s, [])` otherwise. -/
def splitOnceChar (c : Char) (s : Str) : Str × Str :=
  (s.takeWhile (fun d => d ≠ c), (s.dropWhile (fun d => d ≠ c)).drop 1)

/-- The part of `s` before the first occurrence of `c`. -/
def beforeChar (c : Char) (s : Str) : Str := s.takeWhile (fun d => d ≠ c)

/-- `s.replace("\r\n", "\n")` (leftmost, non-overlapping). -/
def replaceCRLF : Str → Str
  | [] => []
  | [c] => [c]
  | c1 :: c2 :: rest =>
    if c1 = '\r' ∧ c2 = '\n' then '\n' :: replaceCRLF rest
    else c1 :: replaceCRLF (c2 :: rest)

/-- Index of the first occurrence of `sep` in `s` (None if absent). -/
def findSub (sep : Str) : Str → Option Nat
  | [] => if sep.isEmpty then some 0 else none
  | c :: rest =>
    if sep.isPrefixOf (c :: rest) then some 0
    else (findSub sep rest).map (· + 1)

def hasSub (sep s : Str) : Bool := (findSub sep s).isSome

/-- `s.split(sep, 1)` when `sep` occurs in `s`. -/
def splitOnceSub (sep s : Str) : Str × Str :=
  match findSub sep s with
  | some i => (s.take i, s.drop (i + sep.length))
  | none => (s, [])

/-- Fuel-driven worker for `splitSub` (structural, so it evaluates). -/
def splitSubF : Nat → Str → Str → List Str
  | 0, _, s => [s]
  | fuel + 1, sep, s =>
    match findSub sep s with
    | none => [s]
    | some i => s.take i :: splitSubF fuel sep (s.drop (i + sep.length))

/-- Python `s.split(sep)` for non-empty `sep`. -/
def splitSub (sep s : Str) : List Str :=
  if sep.isEmpty then [s] else splitSubF (s.length + 1) sep s

/-- Decimal digit run, allowing Python's underscore grouping. -/
def decDigitsOk : Str → Bool
  | [] => false
  | [c] => c.isDigit
  | c :: '_' :: rest => c.isDigit && decDigitsOk rest
  | c :: rest => c.isDigit && decDigitsOk rest

def decDigitsVal (s : Str) : Nat :=
  s.foldl (fun a c => if c = '_' then a else a * 10 + (c.toNat - 48)) 0

/-- Python `int(s, 10)`: strips whitespace, optional sign, decimal digits. -/
def pyToInt (s : Str) : Option Int :=
  match pyStrip s with
  | '+' :: r => if decDigitsOk r then some (decDigitsVal r) else none
  | '-' :: r => if decDigitsOk r then some (-(decDigitsVal r : Int)) else none
  | r => if decDigitsOk r then some (decDigitsVal r) else none

/-- `_safe_int`: strip, take the part before a comma, parse or None. -/
def pySafeInt (s : Str) : Option Int :=
  let t := pyStrip s
  if t.isEmpty then none
  else if t.contains ',' then pyToInt (pyStrip (beforeChar ',' t))
  else pyToInt t

structure Header where
  name : Str
  value : Str
deriving DecidableEq, Repr

/-- `_parse_headers_from_lines`: skip the first line, parse Name: Value. -/
def parseHeadersText (s : Str) : List Header :=
  if s.isEmpty then []
  else
    match splitSub (str "\n") (replaceCRLF s) with
    | [] => []
    | _ :: rest =>
      rest.filterMap fun ln0 =>
        let ln := stripP (fun c => c = '\r') ln0
        if (pyStrip ln).isEmpty then none
        else if !ln.contains ':' then none
        else
          let nv := splitOnceChar ':' ln
          some ⟨pyStrip nv.1, pyLstrip nv.2⟩

/-- `_normalize_content_type`. -/
def normalizeContentType (s : Str) : Str :=
  let t := lowerStr (pyStrip s)
  if t.contains ';' then pyStrip (beforeChar ';' t) else t

inductive PayloadKind where
  | text
  | binary
  | unknown
deriving DecidableEq, Repr

/-- `_classify_payload_kind`. -/
def classifyPayloadKind (ct : Str) : PayloadKind :=
  let c := normalizeContentType ct
  if c.isEmpty then .unknown
  else if (str "text/").isPrefixOf c then .text
  else if c = str "application/json" ∨ c = str "application/ld+json" ∨
          c = str "application/schema+json" then .text
  else if (str "+json").isSuffixOf c then .text
  else if c = str "text/event-stream" then .text
  else if c = str "application/xml" ∨ c = str "text/xml" ∨
          (str "+xml").isSuffixOf c then .text
  else if c = str "application/x-www-form-urlencoded" then .text
  else .binary

def ctValidBChar (c : Char) : Bool := c ≠ '"' && c ≠ ';'

/-- The regex suffix `"?([^";]+)"?` applied right after `boundary=`. -/
def boundaryAfterEq (s : Str) : Option Str :=
  if s.head? = some '"' then
    let r := (s.drop 1).takeWhile ctValidBChar
    if r.isEmpty then none else some r
  else
    let r := s.takeWhile ctValidBChar
    if r.isEmpty then none else some r

/-- Leftmost case-insensitive `boundary=...` match (re.search semantics). -/
def scanBoundary : Str → Option Str
  | [] => none
  | c :: rest =>
    if ((c :: rest).take 9).map Char.toLower = str "boundary=" then
      match boundaryAfterEq ((c :: rest).drop 9) with
      | some r => some r
      | none => scanBoundary rest
    else scanBoundary rest

/-- `_extract_boundary`. -/
def extractBoundary (h : Str) : Option Str :=
  if h.isEmpty then none else (scanBoundary h).map pyStrip

/-- Header lines of one multipart chunk (lines 236-241 of the source). -/
def partHeaderLines (head : Str) : List Header :=
  (splitSub (str "\n") (replaceCRLF head)).filterMap fun ln0 =>
    let ln := pyStrip ln0
    if ln.isEmpty then none
    else if !ln.contains ':' then none
    else
      let nv := splitOnceChar ':' ln
      some ⟨pyStrip nv.1, pyLstrip nv.2⟩

/-- One chunk of `_split_multipart`'s loop: trim, apply the discard
rules, and split headers from body. -/
def mpChunk (bnd chunk0 : Str) : Option (List Header × Str) :=
  let endDelim := str "--" ++ bnd ++ str "--"
  let chunk := pyStrip chunk0
  if chunk.isEmpty ∨ chunk = str "--" ∨ chunk = pyStrip endDelim then none
  else if (str "--").isPrefixOf chunk then none
  else
    let hb :=
      if hasSub (str "\r\n\r\n") chunk then splitOnceSub (str "\r\n\r\n") chunk
      else if hasSub (str "\n\n") chunk then splitOnceSub (str "\n\n") chunk
      else (([] : Str), chunk)
    some (partHeaderLines hb.1, stripP (fun c => c = '\r' || c = '\n') hb.2)

/-- `_split_multipart`. -/
def splitMultipart (body bnd : Str) : List (List Header × Str) :=
  (splitSub (str "--" ++ bnd) body).filterMap (mpChunk bnd)

structure SseEvent where
  event : Option Str
  id : Option Str
  retry_ms : Option Int
  data : Str
deriving DecidableEq, Repr

structure SseAcc where
  event : Option Str
  id : Option Str
  retry_ms : Option Int
  dataLines : List Str
deriving DecidableEq, Repr

def sseLine (acc : SseAcc) (ln : Str) : SseAcc :=
  if ln.isEmpty then acc
  else if (str ":").isPrefixOf ln then acc
  else if !ln.contains ':' then acc
  else
    let kv := splitOnceChar ':' ln
    let k := pyStrip kv.1
    let v := pyLstrip kv.2
    if k = str "event" then { acc with event := some v }
    else if k = str "id" then { acc with id := some v }
    else if k = str "retry" then
      match pySafeInt v with
      | some ms => { acc with retry_ms := some ms }
      | none => acc
    else if k = str "data" then { acc with dataLines := acc.dataLines ++ [v] }
    else acc

/-- One blank-line-separated block of `_parse_sse_events`. -/
def sseBlock (blk0 : Str) : Option SseEvent :=
  let blk := stripP (fun c => c = '\n') blk0
  if (pyStrip blk).isEmpty then none
  else
    let acc := (splitSub (str "\n") blk).foldl sseLine ⟨none, none, none, []⟩
    let d := List.intercalate (str "\n") acc.dataLines
    if !d.isEmpty ∨ acc.event.isSome ∨ acc.id.isSome ∨ acc.retry_ms.isSome then
      some ⟨acc.event, acc.id, acc.retry_ms, d⟩
    else none

/-- `_parse_sse_events`. -/
def parseSseEvents (body : Str) : List SseEvent :=
  (splitSub (str "\n\n") (replaceCRLF body)).filterMap sseBlock

structure Endpoint where
  host : Str
  port : Int
deriving DecidableEq, Repr

structure FiveTuple where
  src : Endpoint
  dst : Endpoint
deriving DecidableEq, Repr

/-- The `conn` object; sub-events carry no five-tuple. -/
structure ConnInfo where
  transport : Str
  stream : Int
  five : Option FiveTuple
deriving DecidableEq, Repr

/-- The `links` object; `none` fields are absent JSON keys. -/
structure Links where
  parent : Option Str
  root : Option Str
  in_response_to : Option Str
deriving DecidableEq, Repr

def Links.isEmptyLinks (l : Links) : Bool :=
  l.parent.isNone && l.root.isNone && l.in_response_to.isNone

structure Payload where
  mime : Option Str
  encoding : Str
  size_bytes : Option Int
  data : Str
  truncated : Bool
deriving DecidableEq, Repr

inductive EvKind where
  | http_request
  | http_response
  | sse_event
  | multipart_part
deriving DecidableEq, Repr

inductive ProtoInfo where
  | httpReq (version : Str) (headers : List Header) (method : Str) (target : Str)
  | httpResp (version : Str) (headers : List Header) (status : Int) (reason : Str)
  | sse (event : Option Str) (id : Option Str) (retry_ms : Option Int)
  | multipart (boundary : Str) (part_index : Nat) (part_headers : List Header)
deriving DecidableEq, Repr

/-- One emitted PVTS event record (`type="event"`); the constant
`pvts`/`type`/`trace_id` keys are not modelled, nor are the framing
`trace_start`/`trace_end` records, which carry no `seq`. -/
structure Event where
  id : Str
  ts : Str
  seq : Nat
  kind : EvKind
  summary : Str
  conn : ConnInfo
  src : Endpoint
  dst : Endpoint
  links : Option Links
  proto : ProtoInfo
  payload : Option Payload
deriving DecidableEq, Repr

structure PendingReq where
  req_id : Str
  root_id : Str
deriving DecidableEq, Repr

/-- Mutable state of the emitter: per-stream FIFO queues (a total map,
mirroring a dict defaulting to an empty deque) and the two counters. -/
structure EmitState where
  pending : Int → List PendingReq
  next_seq : Nat
  next_msg : Nat

def initState : EmitState := ⟨fun _ => [], 0, 1⟩

def updatePending (p : Int → List PendingReq) (k : Int) (v : List PendingReq) :
    Int → List PendingReq :=
  fun j => if j = k then v else p j

def digitChar (d : Nat) : Char := Char.ofNat (48 + d)

/-- Decimal digits of `n`, fuel-driven so that it evaluates by `rfl`. -/
def decReprAux : Nat → Nat → Str
  | 0, n => [digitChar (n % 10)]
  | fuel + 1, n =>
    if n < 10 then [digitChar n]
    else decReprAux fuel (n / 10) ++ [digitChar (n % 10)]

def decRepr (n : Nat) : Str := decReprAux n n

/-- `f"m{n:06d}"`. -/
def mkId (n : Nat) : Str :=
  'm' :: (List.replicate (6 - (decRepr n).length) '0' ++ decRepr n)

/-- Keep an optional string only when it is Python-truthy. -/
def optTruthy : Option Str → Option Str
  | some s => if s.isEmpty then none else some s
  | none => none

def placeholderText : Str :=
  str "<<binary payload omitted (use --display-binary-payload)>>"

def utf8CharLen (c : Char) : Nat :=
  if c.toNat < 0x80 then 1
  else if c.toNat < 0x800 then 2
  else if c.toNat < 0x10000 then 3
  else 4

/-- `len(s.encode("utf-8", errors="ignore"))` for valid scalar values. -/
def utf8Len (s : Str) : Nat := s.foldl (fun a c => a + utf8CharLen c) 0

/-- Payload object of an `http_response` (lines 830-853 of the source). -/
def mkRespPayload (display : Bool) (ct_raw enc_raw cl_s fd : Str) : Payload :=
  let kind := classifyPayloadKind ct_raw
  let mime := if (pyStrip ct_raw).isEmpty then none else some (pyStrip ct_raw)
  let enc := if enc_raw.isEmpty then str "identity" else lowerStr (pyStrip enc_raw)
  let sz := pySafeInt cl_s
  if fd.isEmpty then ⟨mime, enc, sz, [], false⟩
  else if kind = PayloadKind.binary ∧ display = false then
    ⟨mime, enc, sz, placeholderText, true⟩
  else ⟨mime, enc, sz, fd, false⟩

/-- Payload object of a `multipart_part` (lines 958-976 of the source). -/
def mkPartPayload (display : Bool) (part_ct pbody : Str) : Payload :=
  let kind := classifyPayloadKind part_ct
  let mime := if (pyStrip part_ct).isEmpty then none else some (pyStrip part_ct)
  if pbody.isEmpty then ⟨mime, str "identity", some 0, [], false⟩
  else if kind = PayloadKind.binary ∧ display = false then
    ⟨mime, str "identity", some (utf8Len pbody), placeholderText, true⟩
  else ⟨mime, str "identity", some (utf8Len pbody), pbody, false⟩

/-- Payload object of an `sse_event` (lines 906-911 of the source). -/
def mkSsePayload (d : Str) : Payload :=
  ⟨some (str "text/event-stream"), str "identity", none, d, false⟩

/-- One `sse_event` child record. -/
def mkSseChild (parentId : Str) (root : Option Str) (frame_time : Str)
    (streamN : Int) (src dst : Endpoint) (s m : Nat) (e : SseEvent) : Event :=
  { id := mkId m
    ts := frame_time
    seq := s
    kind := .sse_event
    summary := pyStrip (str "SSE " ++ pyOr (e.event.getD []) (str "message"))
    conn := ⟨str "tcp", streamN, none⟩
    src := src
    dst := dst
    links := some ⟨some parentId, optTruthy root, none⟩
    proto := .sse (optTruthy e.event) (optTruthy e.id) e.retry_ms
    payload := some (mkSsePayload e.data) }

/-- One `multipart_part` child record. -/
def mkPartChild (display : Bool) (parentId : Str) (root : Option Str)
    (frame_time : Str) (streamN : Int) (src dst : Endpoint) (b : Str)
    (s m : Nat) (ip : Nat × (List Header × Str)) : Event :=
  let part_ct :=
    ((ip.2.1.find? fun h => lowerStr h.name = str "content-type").map
      Header.value).getD []
  { id := mkId m
    ts := frame_time
    seq := s
    kind := .multipart_part
    summary := pyStrip (str "part[" ++ decRepr ip.1 ++ str "] " ++
      normalizeContentType part_ct)
    conn := ⟨str "tcp", streamN, none⟩
    src := src
    dst := dst
    links := some ⟨some parentId, optTruthy root, none⟩
    proto := .multipart b ip.1 ip.2.1
    payload := some (mkPartPayload display part_ct ip.2.2) }

/-- Emit a run of child events, advancing the seq and id counters in
lockstep, exactly as the source's per-child loops do. -/
def emitSeqWith (f : Nat → Nat → α → Event) : Nat → Nat → List α → List Event
  | _, _, [] => []
  | s, m, x :: xs => f s m x :: emitSeqWith f (s + 1) (m + 1) xs

/-- Field access `g(i)`: out-of-range fields default to `""`, and every
field is stripped. -/
def rowGet (row : List Str) (i : Nat) : Str := pyStrip (row.getD i [])

/-- The pairing key: `int(tcp.stream)` with `-1` for empty or
unparseable values. -/
def rowStreamKey (row : List Str) : Int :=
  let s := rowGet row 1
  if s.isEmpty then -1 else (pyToInt s).getD (-1)

/-- The request branch of `_emit_pvts` (lines 759-800 of the source). -/
def requestStep (st : EmitState) (key : Int) (frame_time : Str)
    (conn : ConnInfo) (src dst : Endpoint)
    (req_method req_uri req_ver http_host req_lines : Str) :
    EmitState × List Event :=
  let eid := mkId st.next_msg
  let headers0 := parseHeadersText req_lines
  let headers :=
    if ¬http_host.isEmpty ∧
        ¬headers0.any (fun h => lowerStr h.name = str "host") then
      (⟨str "Host", http_host⟩ : Header) :: headers0
    else headers0
  let ev : Event :=
    { id := eid
      ts := frame_time
      seq := st.next_seq
      kind := .http_request
      summary := pyStrip (req_method ++ [' '] ++ req_uri)
      conn := conn
      src := src
      dst := dst
      links := none
      proto := .httpReq (pyOr req_ver (str "1.1")) headers req_method
        (pyOr req_uri (str "/"))
      payload := none }
  (⟨updatePending st.pending key (st.pending key ++ [⟨eid, eid⟩]),
    st.next_seq + 1, st.next_msg + 1⟩, [ev])

/-- The response branch of `_emit_pvts` (lines 802-1011 of the source):
emit the `http_response`, then SSE children, then multipart children. -/
def responseStep (display : Bool) (st : EmitState) (key : Int)
    (frame_time : Str) (conn : ConnInfo) (src dst : Endpoint)
    (resp_code resp_phrase resp_ver resp_lines ct_raw cl_s enc_raw fd : Str)
    (status : Int) : EmitState × List Event :=
  let eid := mkId st.next_msg
  let s0 := st.next_seq
  let headers := parseHeadersText resp_lines
  let q := st.pending key
  let popped := q.head?
  let pending1 := updatePending st.pending key (q.drop 1)
  let in_resp_to := optTruthy (popped.map PendingReq.req_id)
  let root := optTruthy (popped.map PendingReq.root_id)
  let linksObj : Links := ⟨none, root, in_resp_to⟩
  let links := if linksObj.isEmptyLinks then none else some linksObj
  let ct_norm := normalizeContentType ct_raw
  let kind := classifyPayloadKind ct_raw
  let ev : Event :=
    { id := eid
      ts := frame_time
      seq := s0
      kind := .http_response
      summary := pyStrip (resp_code ++ [' '] ++ ct_norm)
      conn := conn
      src := src
      dst := dst
      links := links
      proto := .httpResp (pyOr resp_ver (str "1.1")) headers status resp_phrase
      payload := some (mkRespPayload display ct_raw enc_raw cl_s fd) }
  let sseEvs :=
    if ct_norm = str "text/event-stream" ∧ ¬fd.isEmpty ∧
        ¬(kind = PayloadKind.binary ∧ display = false) then
      emitSeqWith (mkSseChild eid root frame_time conn.stream src dst)
        (s0 + 1) (st.next_msg + 1) (parseSseEvents fd)
    else []
  let mpEvs :=
    if (str "multipart/").isPrefixOf ct_norm ∧ ¬fd.isEmpty then
      match extractBoundary ct_raw with
      | some b =>
        if b.isEmpty then []
        else
          emitSeqWith (mkPartChild display eid root frame_time conn.stream src dst b)
            (s0 + 1 + sseEvs.length) (st.next_msg + 1 + sseEvs.length)
            (splitMultipart fd b).enum
      | none => []
    else []
  let total := 1 + sseEvs.length + mpEvs.length
  (⟨pending1, s0 + total, st.next_msg + total⟩, ev :: (sseEvs ++ mpEvs))

def liftO : Option α → Except Unit α
  | some a => .ok a
  | none => .error ()

/-- Process one dissector row (the body of the `for row in ...` loop of
`_emit_pvts`).  `error` models an uncaught Python exception aborting the
run (`int()` on a non-numeric port or status code). -/
def processRow (display : Bool) (st : EmitState) (row : List Str) :
    Except Unit (EmitState × List Event) := do
  let frame_time := rowGet row 0
  let ip_src := pyOr (rowGet row 2) (str "0.0.0.0")
  let src_port_s := pyOr (rowGet row 3) (str "0")
  let ip_dst := pyOr (rowGet row 4) (str "0.0.0.0")
  let dst_port_s := pyOr (rowGet row 5) (str "0")
  let req_method := rowGet row 6
  let req_uri := rowGet row 7
  let req_ver := rowGet row 8
  let http_host := rowGet row 9
  let req_lines := rowGet row 10
  let resp_code := rowGet row 11
  let resp_phrase := rowGet row 12
  let resp_ver := rowGet row 13
  let resp_lines := rowGet row 14
  let content_type_raw := rowGet row 15
  let content_length_s := rowGet row 16
  let content_encoding := rowGet row 17
  let file_data := rowGet row 18
  let key := rowStreamKey row
  let sp ← liftO (pyToInt src_port_s)
  let dp ← liftO (pyToInt dst_port_s)
  let src_ep : Endpoint := ⟨ip_src, sp⟩
  let dst_ep : Endpoint := ⟨ip_dst, dp⟩
  let conn : ConnInfo := ⟨str "tcp", max key 0, some ⟨src_ep, dst_ep⟩⟩
  if ¬req_method.isEmpty then
    pure (requestStep st key frame_time conn src_ep dst_ep req_method req_uri
      req_ver http_host req_lines)
  else if ¬resp_code.isEmpty then do
    let status ← liftO (pyToInt resp_code)
    pure (responseStep display st key frame_time conn src_ep dst_ep resp_code
      resp_phrase resp_ver resp_lines content_type_raw content_length_s
      content_encoding file_data status)
  else
    pure (st, [])

def processRows (display : Bool) (st : EmitState) :
    List (List Str) → Except Unit (EmitState × List Event)
  | [] => .ok (st, [])
  | r :: rs => do
    let a ← processRow display st r
    let b ← processRows display a.1 rs
    pure (b.1, a.2 ++ b.2)

/-- The event records of a whole run, in emission order. -/
def emitRun (display : Bool) (rows : List (List Str)) :
    Except Unit (List Event) :=
  (processRows display initState rows).map (·.2)

/-- Exactly the conditions under which the source's unguarded `int()`
calls succeed on a row. -/
def rowOk (row : List Str) : Bool :=
  (pyToInt (pyOr (rowGet row 3) (str "0"))).isSome &&
  (pyToInt (pyOr (rowGet row 5) (str "0"))).isSome &&
  (!(rowGet row 6).isEmpty || (rowGet row 11).isEmpty ||
    (pyToInt (rowGet row 11)).isSome)

def getParent (e : Event) : Option Str := e.links.bind Links.parent

def partIndexOf (e : Event) : Option Nat :=
  match e.proto with
  | .multipart _ i _ => some i
  | _ => none

/-! Concrete rows used by counterexamples and witnesses.  Field order
(as requested from the dissector): 0 frame.time_epoch, 1 tcp.stream,
2 ip.src, 3 tcp.srcport, 4 ip.dst, 5 tcp.dstport, 6 method, 7 uri,
8 request version, 9 host, 10 request lines, 11 response code,
12 phrase, 13 response version, 14 response lines, 15 content type,
16 content length, 17 content encoding, 18 file data. -/

def mkrow (l : List String) : List Str := l.map str

/-- A response with a binary content type and no captured body. -/
def c3row : List Str :=
  mkrow ["1", "1", "", "", "", "", "", "", "", "", "", "200", "", "", "",
    "application/octet-stream", "", "", ""]

/-- A request row whose source-port field is not numeric. -/
def c4row : List Str :=
  mkrow ["1", "1", "10.0.0.1", "x", "10.0.0.2", "80", "GET", "/a", "", "",
    "", "", "", "", "", "", "", "", ""]

/-- A multipart response with one part and no content-length field. -/
def c5row : List Str :=
  mkrow ["1", "1", "", "", "", "", "", "", "", "", "", "200", "", "", "",
    "multipart/mixed; boundary=X", "", "", "--Xhello--X--"]

/-- A request on genuine stream 0, then a response whose stream field is
empty. -/
def c6rowReq : List Str :=
  mkrow ["1", "0", "", "", "", "", "GET", "/x", "", "", "", "", "", "", "",
    "", "", "", ""]

def c6rowResp : List Str :=
  mkrow ["1", "", "", "", "", "", "", "", "", "", "", "200", "", "", "", "",
    "", "", ""]

/-- A row whose method and status-code fields are both non-empty. -/
def c7row : List Str :=
  mkrow ["1", "1", "", "", "", "", "GET", "/x", "", "", "", "200", "", "",
    "", "", "", "", ""]

/-- A plain request row used to instantiate frame-effect theorems. -/
def c10row : List Str :=
  mkrow ["1", "7", "10.0.0.1", "1234", "10.0.0.2", "80", "GET", "/a", "",
    "", "", "", "", "", "", "", "", "", ""]

/-- The state and events produced by processing `c10row` from the
initial state. -/
def c10post : EmitState × List Event :=
  (processRow false initState c10row).toOption.getD (initState, [])

/-- A response row on stream 7. -/
def c1row : List Str :=
  mkrow ["1", "7", "", "", "", "", "", "", "", "", "", "200", "", "", "",
    "", "", "", ""]

/-- A state with one pending request queued on stream 7. -/
def c1pre : EmitState :=
  ⟨fun k => if k = 7 then [⟨str "m000001", str "m000001"⟩] else [], 1, 2⟩

def c1post : EmitState × List Event :=
  (processRow false c1pre c1row).toOption.getD (initState, [])

/-- A row with neither a method nor a status code. -/
def c7wrow : List Str :=
  mkrow ["1", "2", "", "", "", "", "", "", "", "", "", "", "", "", "", "",
    "", "", ""]

def c7post : EmitState × List Event :=
  (processRow false initState c7wrow).toOption.getD (initState, [])

/-- A request row with an unparseable stream-id field. -/
def c6wrow : List Str :=
  mkrow ["1", "x", "", "", "", "", "GET", "/y", "", "", "", "", "", "", "",
    "", "", "", ""]

def c6post : EmitState × List Event :=
  (processRow false initState c6wrow).toOption.getD (initState, [])

/-- A two-row run (request then response) for the C2 witness. -/
def c2rows : List (List Str) :=
  [mkrow ["1", "3", "", "", "", "", "GET", "/a", "", "", "", "", "", "",
    "", "", "", "", ""],
   mkrow ["2", "3", "", "", "", "", "", "", "", "", "", "200", "", "", "",
    "text/event-stream", "", "", "data: hi"]]

def c2evs : List Event := (emitRun false c2rows).toOption.getD []

/-- A response row carrying an SSE body of two data-only events. -/
def sseRow (d1 d2 : Str) : List Str :=
  [[], [], [], [], [], [], [], [], [], [], [], str "200", [], [], [],
   str "text/event-stream", [], [],
   (str "data: " ++ d1) ++ str "\n\n" ++ (str "data: " ++ d2)]

/-- A multipart body with two parts and a closing delimiter. -/
def mpBody (b p1 p2 : Str) : Str :=
  (str "--" ++ b) ++ ((p1 ++ (str "--" ++ b)) ++
    ((p2 ++ (str "--" ++ b)) ++ str "--"))

/-- A response row carrying a two-part multipart body. -/
def mpRow (b p1 p2 : Str) : List Str :=
  [[], [], [], [], [], [], [], [], [], [], [], str "200", [], [], [],
   str "multipart/mixed; boundary=" ++ b, [], [], mpBody b p1 p2]

/-! ### Theorems -/

/-- C3, counterexample: a response whose content type classifies as
binary, with binary display disabled, but with no captured body, is
emitted with `truncated = false` and empty `data` — not with the
placeholder and `truncated = true` that the claim's iff ("regardless of
the actual body content") requires. -/
theorem c3_redaction_cex :
    (emitRun false [c3row]).map
        (List.map fun e => e.payload.map fun p => (p.truncated, p.data)) =
      .ok [some (false, [])] ∧
    classifyPayloadKind (str "application/octet-stream") =
      PayloadKind.binary := by
  exact ⟨rfl, rfl⟩

/-- C4: the claim (and the spec) say a malformed row never aborts the
run, but a non-numeric source-port field reaches the unguarded
`int(src_port)` and raises, aborting the run. -/
theorem c4_abort_on_bad_port :
    emitRun false [c4row] = .error () ∧ rowGet c4row 3 = str "x" := by
  exact ⟨rfl, rfl⟩

/-- C5, counterexample: a multipart part's payload carries
`size_bytes = 5`, computed from the UTF-8 length of the part body,
although the row's dedicated content-length field is empty and parses to
nothing — contradicting "size_bytes is present exactly when the
dedicated content-length field parsed" and "never computed from the
length of the captured body text". -/
theorem c5_size_bytes_cex :
    (emitRun false [c5row]).map
        (List.map fun e => e.payload.map fun p => p.size_bytes) =
      .ok [some none, some (some 5)] ∧
    pySafeInt (rowGet c5row 16) = none := by
  exact ⟨rfl, rfl⟩

/-- C6, counterexample: a request on genuine stream 0 followed by a
response whose stream field is empty.  Both events report
`conn.stream = 0`, yet the response is emitted unlinked: pairing for the
unusable stream id used the internal bucket `-1`, not the bucket of
stream 0 as the claim states. -/
theorem c6_stream_bucket_cex :
    (emitRun false [c6rowReq, c6rowResp]).map
        (List.map fun e => (e.kind, e.conn.stream, e.links)) =
      .ok [(.http_request, 0, none), (.http_response, 0, none)] := by
  exact rfl

/-- C7, counterexample: a row with a non-empty method field and a
non-empty status-code field is dispatched as a request only, so "treated
as a response iff the HTTP status-code field is non-empty" fails. -/
theorem c7_dispatch_cex :
    (emitRun false [c7row]).map (List.map Event.kind) =
      .ok [.http_request] ∧
    (rowGet c7row 11).isEmpty = false := by
  exact ⟨rfl, rfl⟩

/-- C3, amended: for response and multipart-part payloads,
`truncated = true` iff a non-empty body was captured, it classified as
binary, and binary display was disabled; in that case `data` is the
fixed placeholder, otherwise the captured body (possibly empty) is
embedded verbatim. -/
theorem c3_redaction_amended (display : Bool) (ct enc cl fd pct pb : Str) :
    ((mkRespPayload display ct enc cl fd).truncated = true ↔
      (fd ≠ [] ∧ classifyPayloadKind ct = PayloadKind.binary ∧
        display = false)) ∧
    (mkRespPayload display ct enc cl fd).data =
      (if fd ≠ [] ∧ classifyPayloadKind ct = PayloadKind.binary ∧
          display = false then placeholderText else fd) ∧
    ((mkPartPayload display pct pb).truncated = true ↔
      (pb ≠ [] ∧ classifyPayloadKind pct = PayloadKind.binary ∧
        display = false)) ∧
    (mkPartPayload display pct pb).data =
      (if pb ≠ [] ∧ classifyPayloadKind pct = PayloadKind.binary ∧
          display = false then placeholderText else pb) := by
  refine ⟨?_, ?_, ?_, ?_⟩ <;>
    first
      | (simp only [mkRespPayload]
         split_ifs <;> simp_all [List.isEmpty_iff])
      | (simp only [mkPartPayload]
         split_ifs <;> simp_all [List.isEmpty_iff])

/-- C5, amended: a response payload's `size_bytes` is present exactly
when the dedicated content-length field parses (and then equals it); a
multipart part's payload always carries `size_bytes` equal to the UTF-8
byte length of the part body; an SSE payload never carries it. -/
theorem c5_size_bytes_amended (display : Bool) (ct enc cl fd pct pb d : Str) :
    (mkRespPayload display ct enc cl fd).size_bytes = pySafeInt cl ∧
    (mkPartPayload display pct pb).size_bytes = some (utf8Len pb) ∧
    (mkSsePayload d).size_bytes = none := by
  refine ⟨?_, ?_, rfl⟩ <;>
    first
      | (simp only [mkRespPayload]
         split_ifs <;> simp_all [List.isEmpty_iff])
      | (simp only [mkPartPayload]
         split_ifs <;> simp_all [List.isEmpty_iff, utf8Len])

/-- C10: processing one row touches only the pending queue of that
row's own stream key: a request appends exactly one entry there, a
response drops at most its head, and every other key's queue -- and, for
a skipped row, the whole map -- is unchanged. -/
theorem c10_frame_effect (display : Bool) (st : EmitState) (row : List Str)
    (st' : EmitState) (evs : List Event)
    (hok : processRow display st row = .ok (st', evs)) :
    (∀ k, k ≠ rowStreamKey row → st'.pending k = st.pending k) ∧
    (¬(rowGet row 6).isEmpty →
      ∃ pr, st'.pending (rowStreamKey row) =
        st.pending (rowStreamKey row) ++ [pr]) ∧
    ((rowGet row 6).isEmpty → ¬(rowGet row 11).isEmpty →
      st'.pending (rowStreamKey row) =
        (st.pending (rowStreamKey row)).drop 1) ∧
    ((rowGet row 6).isEmpty → (rowGet row 11).isEmpty →
      st'.pending = st.pending) := by
  unfold processRow at hok
  simp only [Bind.bind, pure] at hok
  rcases hsp : pyToInt (pyOr (rowGet row 3) (str "0")) with _ | sp <;>
    rw [hsp] at hok
  · simp [liftO, Except.bind] at hok
  rcases hdp : pyToInt (pyOr (rowGet row 5) (str "0")) with _ | dp <;>
    rw [hdp] at hok
  · simp [liftO, Except.bind] at hok
  simp only [liftO, Except.bind] at hok
  by_cases hm : (rowGet row 6).isEmpty
  · rw [if_neg (by simp [hm])] at hok
    by_cases hr : (rowGet row 11).isEmpty
    · rw [if_neg (by simp [hr])] at hok
      simp only [Except.pure, Except.ok.injEq, Prod.mk.injEq] at hok
      rcases hok with ⟨h1, h2⟩
      subst h1
      simp only [List.isEmpty_iff] at hm hr
      simp [hm, hr]
    · rw [if_pos hr] at hok
      rcases hst : pyToInt (rowGet row 11) with _ | status <;>
        rw [hst] at hok
      · simp at hok
      simp only [Except.pure, Except.ok.injEq, Prod.mk.injEq] at hok
      have hs : _ = st' := congrArg Prod.fst hok
      subst hs
      have hp : ∀ k, (responseStep display st (rowStreamKey row) (rowGet row 0)
          ⟨str "tcp", rowStreamKey row ⊔ 0, some ⟨⟨pyOr (rowGet row 2) (str "0.0.0.0"), sp⟩,
            ⟨pyOr (rowGet row 4) (str "0.0.0.0"), dp⟩⟩⟩
          ⟨pyOr (rowGet row 2) (str "0.0.0.0"), sp⟩
          ⟨pyOr (rowGet row 4) (str "0.0.0.0"), dp⟩ (rowGet row 11) (rowGet row 12)
          (rowGet row 13) (rowGet row 14) (rowGet row 15) (rowGet row 16) (rowGet row 17)
          (rowGet row 18) status).1.pending k =
          updatePending st.pending (rowStreamKey row)
            ((st.pending (rowStreamKey row)).drop 1) k := by
        intro k
        simp [responseStep]
      refine ⟨fun k hk => by simp [hp, updatePending, hk], ?_, ?_, ?_⟩
      · intro h
        exact absurd hm h
      · intro _ _
        simp [hp, updatePending]
      · intro _ h
        exact absurd h hr
  · rw [if_pos hm] at hok
    simp only [Except.pure, Except.ok.injEq, Prod.mk.injEq] at hok
    have hs : _ = st' := congrArg Prod.fst hok
    subst hs
    have hp : ∀ k, (requestStep st (rowStreamKey row) (rowGet row 0)
        ⟨str "tcp", rowStreamKey row ⊔ 0, some ⟨⟨pyOr (rowGet row 2) (str "0.0.0.0"), sp⟩,
          ⟨pyOr (rowGet row 4) (str "0.0.0.0"), dp⟩⟩⟩
        ⟨pyOr (rowGet row 2) (str "0.0.0.0"), sp⟩
        ⟨pyOr (rowGet row 4) (str "0.0.0.0"), dp⟩ (rowGet row 6) (rowGet row 7)
        (rowGet row 8) (rowGet row 9) (rowGet row 10)).1.pending k =
        updatePending st.pending (rowStreamKey row)
          (st.pending (rowStreamKey row) ++
            [⟨mkId st.next_msg, mkId st.next_msg⟩]) k := by
      intro k
      simp [requestStep]
    refine ⟨fun k hk => by simp [hp, updatePending, hk], ?_, ?_, ?_⟩
    · intro _
      exact ⟨⟨mkId st.next_msg, mkId st.next_msg⟩, by simp [hp, updatePending]⟩
    · intro h
      exact absurd h hm
    · intro h
      exact absurd h hm


/-- Witness for C10 at a concrete request row. -/
theorem c10_frame_effect_inst :
    (∀ k, k ≠ rowStreamKey c10row → c10post.1.pending k = initState.pending k) ∧
    (¬(rowGet c10row 6).isEmpty →
      ∃ pr, c10post.1.pending (rowStreamKey c10row) =
        initState.pending (rowStreamKey c10row) ++ [pr]) ∧
    ((rowGet c10row 6).isEmpty → ¬(rowGet c10row 11).isEmpty →
      c10post.1.pending (rowStreamKey c10row) =
        (initState.pending (rowStreamKey c10row)).drop 1) ∧
    ((rowGet c10row 6).isEmpty → (rowGet c10row 11).isEmpty →
      c10post.1.pending = initState.pending) :=
  c10_frame_effect false initState c10row c10post.1 c10post.2 rfl

/-- C1: for a response row, when the pending queue of the row's stream
key is non-empty its head is popped and supplies the emitted response's
`in_response_to` and `root` links (so FIFO order pairs R1 with A and R2
with B); when it is empty the response event is still emitted with the
`links` field absent entirely. -/
theorem c1_response_pairing (display : Bool) (st : EmitState) (row : List Str)
    (st' : EmitState) (evs : List Event)
    (hreq : rowGet row 6 = []) (hresp : rowGet row 11 ≠ [])
    (hok : processRow display st row = .ok (st', evs))
    (hwf : ∀ pr ∈ st.pending (rowStreamKey row),
      pr.req_id ≠ [] ∧ pr.root_id ≠ []) :
    ∃ ev rest, evs = ev :: rest ∧ ev.kind = .http_response ∧
      (match st.pending (rowStreamKey row) with
       | [] => ev.links = none ∧
           st'.pending (rowStreamKey row) = st.pending (rowStreamKey row)
       | pr :: tl =>
           ev.links = some ⟨none, some pr.root_id, some pr.req_id⟩ ∧
           st'.pending (rowStreamKey row) = tl) := by
  unfold processRow at hok
  simp only [Bind.bind, pure] at hok
  rcases hsp : pyToInt (pyOr (rowGet row 3) (str "0")) with _ | sp <;>
    rw [hsp] at hok
  · simp [liftO, Except.bind] at hok
  rcases hdp : pyToInt (pyOr (rowGet row 5) (str "0")) with _ | dp <;>
    rw [hdp] at hok
  · simp [liftO, Except.bind] at hok
  simp only [liftO, Except.bind] at hok
  rw [if_neg (by simp [hreq])] at hok
  rw [if_pos (by simpa [List.isEmpty_iff] using hresp)] at hok
  rcases hst : pyToInt (rowGet row 11) with _ | status <;>
    rw [hst] at hok
  · simp at hok
  simp only [Except.pure, Except.ok.injEq] at hok
  have hs : _ = st' := congrArg Prod.fst hok
  have he : _ = evs := congrArg Prod.snd hok
  subst hs
  subst he
  cases hq : st.pending (rowStreamKey row) with
  | nil =>
    simp only [responseStep, hq, List.head?, Option.map_none', optTruthy,
      Links.isEmptyLinks, Option.isNone_none, Bool.and_self, if_true]
    refine ⟨_, _, rfl, rfl, rfl, ?_⟩
    simp [updatePending, hq]
  | cons pr tl =>
    obtain ⟨h1, h2⟩ := hwf pr (by rw [hq]; exact List.mem_cons_self pr tl)
    simp only [responseStep, hq, List.head?, Option.map_some', optTruthy,
      Links.isEmptyLinks, List.isEmpty_iff, if_neg h1, if_neg h2,
      Option.isNone_some, Bool.and_self, Bool.false_and, if_false]
    refine ⟨_, _, rfl, rfl, ?_, ?_⟩
    · rfl
    · simp [updatePending]


/-- Witness for C1 at a concrete response row with one queued request. -/
theorem c1_response_pairing_inst :
    ∃ ev rest, c1post.2 = ev :: rest ∧ ev.kind = .http_response ∧
      (match c1pre.pending (rowStreamKey c1row) with
       | [] => ev.links = none ∧
           c1post.1.pending (rowStreamKey c1row) =
             c1pre.pending (rowStreamKey c1row)
       | pr :: tl =>
           ev.links = some ⟨none, some pr.root_id, some pr.req_id⟩ ∧
           c1post.1.pending (rowStreamKey c1row) = tl) :=
  c1_response_pairing false c1pre c1row c1post.1 c1post.2 (by decide)
    (by decide) rfl (by decide)

lemma emitSeqWith_forall {α : Type} (f : Nat → Nat → α → Event)
    (P : Event → Prop) (hf : ∀ s m x, P (f s m x)) :
    ∀ s m (xs : List α), ∀ e ∈ emitSeqWith f s m xs, P e := by
  intro s m xs
  induction xs generalizing s m with
  | nil => intro e he; cases he
  | cons x xs ih =>
    intro e he
    rcases List.mem_cons.1 he with h | h
    · rw [h]; exact hf _ _ _
    · exact ih _ _ e h

/-- C7, amended: a row is dispatched as a request iff its method field
is non-empty (requests take precedence); as a response iff its
status-code field is non-empty and the method field is empty; and when
both fields are empty it is silently skipped: nothing is emitted and the
whole state is unchanged. -/
theorem c7_dispatch_amended (display : Bool) (st : EmitState)
    (row : List Str) (st' : EmitState) (evs : List Event)
    (hok : processRow display st row = .ok (st', evs)) :
    (¬(rowGet row 6).isEmpty → ∃ ev, evs = [ev] ∧ ev.kind = .http_request) ∧
    ((rowGet row 6).isEmpty → ¬(rowGet row 11).isEmpty →
      ∃ ev rest, evs = ev :: rest ∧ ev.kind = .http_response ∧
        ∀ e ∈ rest, e.kind = .sse_event ∨ e.kind = .multipart_part) ∧
    ((rowGet row 6).isEmpty → (rowGet row 11).isEmpty →
      evs = [] ∧ st' = st) := by
  unfold processRow at hok
  simp only [Bind.bind, pure] at hok
  rcases hsp : pyToInt (pyOr (rowGet row 3) (str "0")) with _ | sp <;>
    rw [hsp] at hok
  · simp [liftO, Except.bind] at hok
  rcases hdp : pyToInt (pyOr (rowGet row 5) (str "0")) with _ | dp <;>
    rw [hdp] at hok
  · simp [liftO, Except.bind] at hok
  simp only [liftO, Except.bind] at hok
  by_cases hm : (rowGet row 6).isEmpty
  · rw [if_neg (by simp [hm])] at hok
    by_cases hr : (rowGet row 11).isEmpty
    · rw [if_neg (by simp [hr])] at hok
      simp only [Except.pure, Except.ok.injEq, Prod.mk.injEq] at hok
      rcases hok with ⟨h1, h2⟩
      refine ⟨fun h => absurd hm h, fun _ h => absurd hr h, fun _ _ => ⟨h2.symm, h1.symm⟩⟩
    · rw [if_pos hr] at hok
      rcases hst : pyToInt (rowGet row 11) with _ | status <;>
        rw [hst] at hok
      · simp at hok
      simp only [Except.pure, Except.ok.injEq] at hok
      have he : _ = evs := congrArg Prod.snd hok
      refine ⟨fun h => absurd hm h, fun _ _ => ?_, fun _ h => absurd h hr⟩
      rw [← he]
      simp only [responseStep]
      refine ⟨_, _, rfl, rfl, ?_⟩
      intro e hmem
      rcases List.mem_append.1 hmem with hl | hrr
      · left
        split at hl
        · refine emitSeqWith_forall _ (fun ev => ev.kind = EvKind.sse_event)
            ?_ _ _ _ e hl
          intro a b x
          rfl
        · cases hl
      · right
        split at hrr
        · split at hrr
          · split at hrr
            · cases hrr
            · refine emitSeqWith_forall _
                (fun ev => ev.kind = EvKind.multipart_part) ?_ _ _ _ e hrr
              intro a b x
              rfl
          · cases hrr
        · cases hrr
  · rw [if_pos hm] at hok
    simp only [Except.pure, Except.ok.injEq] at hok
    have he : _ = evs := congrArg Prod.snd hok
    refine ⟨fun _ => ?_, fun h => absurd h hm, fun h => absurd h hm⟩
    rw [← he]
    exact ⟨_, rfl, rfl⟩


/-- Witness for the amended C7 at a row with both fields empty. -/
theorem c7_dispatch_amended_inst :
    (¬(rowGet c7wrow 6).isEmpty →
      ∃ ev, c7post.2 = [ev] ∧ ev.kind = .http_request) ∧
    ((rowGet c7wrow 6).isEmpty → ¬(rowGet c7wrow 11).isEmpty →
      ∃ ev rest, c7post.2 = ev :: rest ∧ ev.kind = .http_response ∧
        ∀ e ∈ rest, e.kind = .sse_event ∨ e.kind = .multipart_part) ∧
    ((rowGet c7wrow 6).isEmpty → (rowGet c7wrow 11).isEmpty →
      c7post.2 = [] ∧ c7post.1 = initState) :=
  c7_dispatch_amended false initState c7wrow c7post.1 c7post.2 rfl

/-- C6, amended: a row whose stream-id field is empty or unparseable is
normalised to internal key `-1`: its emitted events still report
`conn.stream = 0`, but its pairing state lives in the `-1` bucket, so
such rows pair only with each other and the queues of every other key
(including genuine stream 0) are untouched. -/
theorem c6_stream_bucket_amended (display : Bool) (st : EmitState)
    (row : List Str) (st' : EmitState) (evs : List Event)
    (hbad : rowGet row 1 = [] ∨ pyToInt (rowGet row 1) = none)
    (hok : processRow display st row = .ok (st', evs)) :
    rowStreamKey row = -1 ∧
    (∀ e ∈ evs, e.conn.stream = 0) ∧
    (∀ k, k ≠ (-1 : Int) → st'.pending k = st.pending k) := by
  have hkey : rowStreamKey row = -1 := by
    unfold rowStreamKey
    rcases hbad with h | h
    · simp [h, List.isEmpty_iff]
    · by_cases he : (rowGet row 1).isEmpty <;> simp [he, h]
  refine ⟨hkey, ?_⟩
  unfold processRow at hok
  rw [hkey] at hok
  simp only [Bind.bind, pure] at hok
  rcases hsp : pyToInt (pyOr (rowGet row 3) (str "0")) with _ | sp <;>
    rw [hsp] at hok
  · simp [liftO, Except.bind] at hok
  rcases hdp : pyToInt (pyOr (rowGet row 5) (str "0")) with _ | dp <;>
    rw [hdp] at hok
  · simp [liftO, Except.bind] at hok
  simp only [liftO, Except.bind] at hok
  by_cases hm : (rowGet row 6).isEmpty
  · rw [if_neg (by simp [hm])] at hok
    by_cases hr : (rowGet row 11).isEmpty
    · rw [if_neg (by simp [hr])] at hok
      simp only [Except.pure, Except.ok.injEq, Prod.mk.injEq] at hok
      rcases hok with ⟨h1, h2⟩
      subst h1
      subst h2
      exact ⟨by simp, fun k hk => rfl⟩
    · rw [if_pos hr] at hok
      rcases hst : pyToInt (rowGet row 11) with _ | status <;>
        rw [hst] at hok
      · simp at hok
      simp only [Except.pure, Except.ok.injEq] at hok
      have hs : _ = st' := congrArg Prod.fst hok
      have he : _ = evs := congrArg Prod.snd hok
      subst hs
      subst he
      constructor
      · intro e hmem
        simp only [responseStep] at hmem
        rcases List.mem_cons.1 hmem with h | h
        · rw [h]
          simp
        · rcases List.mem_append.1 h with hl | hrr
          · split at hl
            · refine emitSeqWith_forall _ (fun ev => ev.conn.stream = 0)
                ?_ _ _ _ e hl
              intro a b x
              simp [mkSseChild]
            · cases hl
          · split at hrr
            · split at hrr
              · split at hrr
                · cases hrr
                · refine emitSeqWith_forall _ (fun ev => ev.conn.stream = 0)
                    ?_ _ _ _ e hrr
                  intro a b x
                  simp [mkPartChild]
              · cases hrr
            · cases hrr
      · intro k hk
        simp [responseStep, updatePending, hk]
  · rw [if_pos hm] at hok
    simp only [Except.pure, Except.ok.injEq] at hok
    have hs : _ = st' := congrArg Prod.fst hok
    have he : _ = evs := congrArg Prod.snd hok
    subst hs
    subst he
    constructor
    · intro e hmem
      simp only [requestStep] at hmem
      rcases List.mem_cons.1 hmem with h | h
      · rw [h]
        simp [requestStep]
      · cases h
    · intro k hk
      simp [requestStep, updatePending, hk]


/-- Witness for the amended C6 at a request row with stream id "x". -/
theorem c6_stream_bucket_amended_inst :
    rowStreamKey c6wrow = -1 ∧
    (∀ e ∈ c6post.2, e.conn.stream = 0) ∧
    (∀ k, k ≠ (-1 : Int) → c6post.1.pending k = initState.pending k) :=
  c6_stream_bucket_amended false initState c6wrow c6post.1 c6post.2
    (Or.inr (by decide)) rfl

def digitStep (a : Nat) (c : Char) : Nat := a * 10 + (c.toNat - 48)

lemma digitChar_toNat (d : Nat) (h : d < 10) : (digitChar d).toNat = 48 + d := by
  interval_cases d <;> rfl

lemma decReprAux_val (fuel : Nat) :
    ∀ n, n ≤ fuel → List.foldl digitStep 0 (decReprAux fuel n) = n := by
  induction fuel with
  | zero =>
    intro n hn
    interval_cases n
    rfl
  | succ fuel ih =>
    intro n hn
    by_cases h10 : n < 10
    · simp only [decReprAux, if_pos h10, List.foldl_cons, List.foldl_nil,
        digitStep, digitChar_toNat n h10]
      omega
    · have hdiv : n / 10 ≤ fuel := by
        have := Nat.div_lt_self (by omega : 0 < n) (by omega : 1 < 10)
        omega
      simp only [decReprAux, if_neg h10, List.foldl_append, List.foldl_cons,
        List.foldl_nil, ih (n / 10) hdiv]
      have hm : n % 10 < 10 := Nat.mod_lt n (by omega)
      simp only [digitStep, digitChar_toNat (n % 10) hm]
      omega

lemma foldl_zeros (ds : Str) :
    ∀ k, List.foldl digitStep 0 (List.replicate k '0' ++ ds) =
      List.foldl digitStep 0 ds := by
  intro k
  induction k with
  | zero => rfl
  | succ k ih => simpa [List.replicate_succ, digitStep] using ih

lemma decRepr_val (n : Nat) : List.foldl digitStep 0 (decRepr n) = n :=
  decReprAux_val n n le_rfl

lemma mkId_inj : Function.Injective mkId := by
  intro n m h
  have h2 := List.cons.injEq 'm' _ 'm' _ ▸ h
  have h3 : List.replicate (6 - (decRepr n).length) '0' ++ decRepr n =
      List.replicate (6 - (decRepr m).length) '0' ++ decRepr m := by
    simpa [mkId] using h
  have h4 := congrArg (List.foldl digitStep 0) h3
  rwa [foldl_zeros, foldl_zeros, decRepr_val, decRepr_val] at h4

lemma emitSeqWith_length {α : Type} (f : Nat → Nat → α → Event) :
    ∀ s m (xs : List α), (emitSeqWith f s m xs).length = xs.length := by
  intro s m xs
  induction xs generalizing s m with
  | nil => rfl
  | cons x xs ih => simp [emitSeqWith, ih]

lemma emitSeqWith_map_seq {α : Type} (f : Nat → Nat → α → Event)
    (hf : ∀ s m x, (f s m x).seq = s) :
    ∀ s m (xs : List α),
      (emitSeqWith f s m xs).map Event.seq = List.range' s xs.length := by
  intro s m xs
  induction xs generalizing s m with
  | nil => rfl
  | cons x xs ih =>
    simp [emitSeqWith, hf, ih, List.range'_succ]

lemma emitSeqWith_map_id {α : Type} (f : Nat → Nat → α → Event)
    (hf : ∀ s m x, (f s m x).id = mkId m) :
    ∀ s m (xs : List α),
      (emitSeqWith f s m xs).map Event.id =
        (List.range' m xs.length).map mkId := by
  intro s m xs
  induction xs generalizing s m with
  | nil => rfl
  | cons x xs ih =>
    simp [emitSeqWith, hf, ih, List.range'_succ]

lemma emitSeqWith_parent_seq {α : Type} (f : Nat → Nat → α → Event)
    (pid : Str) (s m : Nat) (xs : List α) (e : Event)
    (he : e ∈ emitSeqWith f s m xs)
    (hfp : ∀ s m x, getParent (f s m x) = some pid)
    (hfs : ∀ s m x, (f s m x).seq = s) :
    getParent e = some pid ∧ s ≤ e.seq := by
  revert he
  induction xs generalizing s m with
  | nil => intro he; cases he
  | cons x xs ih =>
    intro he
    rcases List.mem_cons.1 he with h | h
    · rw [h]
      exact ⟨hfp _ _ _, le_of_eq (hfs _ _ _).symm⟩
    · obtain ⟨h1, h2⟩ := ih _ _ h
      exact ⟨h1, by omega⟩

lemma map_seq_glue (ev : Event) (l1 l2 : List Event) (s0 : Nat)
    (h0 : ev.seq = s0)
    (h1 : l1.map Event.seq = List.range' (s0 + 1) l1.length)
    (h2 : l2.map Event.seq = List.range' (s0 + 1 + l1.length) l2.length) :
    (ev :: (l1 ++ l2)).map Event.seq =
      List.range' s0 (ev :: (l1 ++ l2)).length := by
  have happ := List.range'_append (s0 + 1) l1.length l2.length 1
  simp only [one_mul] at happ
  simp only [List.map_cons, List.map_append, h0, h1, h2]
  rw [happ]
  simp only [List.length_cons, List.length_append]
  rw [show l2.length + l1.length = l1.length + l2.length by omega,
    ← List.range'_succ]

lemma map_id_glue (ev : Event) (l1 l2 : List Event) (m0 : Nat)
    (h0 : ev.id = mkId m0)
    (h1 : l1.map Event.id = (List.range' (m0 + 1) l1.length).map mkId)
    (h2 : l2.map Event.id =
      (List.range' (m0 + 1 + l1.length) l2.length).map mkId) :
    (ev :: (l1 ++ l2)).map Event.id =
      (List.range' m0 (ev :: (l1 ++ l2)).length).map mkId := by
  have happ := List.range'_append (m0 + 1) l1.length l2.length 1
  simp only [one_mul] at happ
  simp only [List.map_cons, List.map_append, h0, h1, h2]
  rw [← List.map_append, happ]
  simp only [List.length_cons, List.length_append]
  rw [show l2.length + l1.length = l1.length + l2.length by omega]
  rw [List.range'_succ, List.map_cons]


lemma processRow_counters (display : Bool) (st : EmitState) (row : List Str)
    (st' : EmitState) (evs : List Event)
    (hok : processRow display st row = .ok (st', evs)) :
    evs.map Event.seq = List.range' st.next_seq evs.length ∧
    evs.map Event.id = (List.range' st.next_msg evs.length).map mkId ∧
    st'.next_seq = st.next_seq + evs.length ∧
    st'.next_msg = st.next_msg + evs.length := by
  unfold processRow at hok
  simp only [Bind.bind, pure] at hok
  rcases hsp : pyToInt (pyOr (rowGet row 3) (str "0")) with _ | sp <;>
    rw [hsp] at hok
  · simp [liftO, Except.bind] at hok
  rcases hdp : pyToInt (pyOr (rowGet row 5) (str "0")) with _ | dp <;>
    rw [hdp] at hok
  · simp [liftO, Except.bind] at hok
  simp only [liftO, Except.bind] at hok
  by_cases hm : (rowGet row 6).isEmpty
  · rw [if_neg (by simp [hm])] at hok
    by_cases hr : (rowGet row 11).isEmpty
    · rw [if_neg (by simp [hr])] at hok
      simp only [Except.pure, Except.ok.injEq, Prod.mk.injEq] at hok
      rcases hok with ⟨h1, h2⟩
      subst h1
      subst h2
      simp [List.range']
    · rw [if_pos hr] at hok
      rcases hst : pyToInt (rowGet row 11) with _ | status <;>
        rw [hst] at hok
      · simp at hok
      simp only [Except.pure, Except.ok.injEq] at hok
      have hs : _ = st' := congrArg Prod.fst hok
      have he : _ = evs := congrArg Prod.snd hok
      subst hs
      subst he
      simp only [responseStep]
      refine ⟨map_seq_glue _ _ _ _ rfl ?_ ?_, map_id_glue _ _ _ _ rfl ?_ ?_,
        ?_, ?_⟩
      · split
        · rw [emitSeqWith_length]
          exact emitSeqWith_map_seq _ (fun _ _ _ => rfl) _ _ _
        · rfl
      · split
        · split
          · split
            · rfl
            · rw [emitSeqWith_length]
              exact emitSeqWith_map_seq _ (fun _ _ _ => rfl) _ _ _
          · rfl
        · rfl
      · split
        · rw [emitSeqWith_length]
          exact emitSeqWith_map_id _ (fun _ _ _ => rfl) _ _ _
        · rfl
      · split
        · split
          · split
            · rfl
            · rw [emitSeqWith_length]
              exact emitSeqWith_map_id _ (fun _ _ _ => rfl) _ _ _
          · rfl
        · rfl
      · simp only [List.length_cons, List.length_append]
        omega
      · simp only [List.length_cons, List.length_append]
        omega
  · rw [if_pos hm] at hok
    simp only [Except.pure, Except.ok.injEq] at hok
    have hs : _ = st' := congrArg Prod.fst hok
    have he : _ = evs := congrArg Prod.snd hok
    subst hs
    subst he
    simp [requestStep, List.range']


lemma processRow_parent (display : Bool) (st : EmitState) (row : List Str)
    (st' : EmitState) (evs : List Event)
    (hok : processRow display st row = .ok (st', evs)) :
    ∀ c ∈ evs, ∀ p, getParent c = some p →
      ∃ r rest, evs = r :: rest ∧ r.id = p ∧ r.kind = .http_response ∧
        r.seq < c.seq := by
  unfold processRow at hok
  simp only [Bind.bind, pure] at hok
  rcases hsp : pyToInt (pyOr (rowGet row 3) (str "0")) with _ | sp <;>
    rw [hsp] at hok
  · simp [liftO, Except.bind] at hok
  rcases hdp : pyToInt (pyOr (rowGet row 5) (str "0")) with _ | dp <;>
    rw [hdp] at hok
  · simp [liftO, Except.bind] at hok
  simp only [liftO, Except.bind] at hok
  by_cases hm : (rowGet row 6).isEmpty
  · rw [if_neg (by simp [hm])] at hok
    by_cases hr : (rowGet row 11).isEmpty
    · rw [if_neg (by simp [hr])] at hok
      simp only [Except.pure, Except.ok.injEq, Prod.mk.injEq] at hok
      rcases hok with ⟨h1, h2⟩
      subst h1
      subst h2
      intro c hc
      cases hc
    · rw [if_pos hr] at hok
      rcases hst : pyToInt (rowGet row 11) with _ | status <;>
        rw [hst] at hok
      · simp at hok
      simp only [Except.pure, Except.ok.injEq] at hok
      have he : _ = evs := congrArg Prod.snd hok
      subst he
      simp only [responseStep]
      intro c hc p hp
      rcases List.mem_cons.1 hc with h | h
      · rw [h] at hp
        simp only [getParent] at hp
        split at hp <;> simp_all
      · rcases List.mem_append.1 h with hl | hrr
        · split at hl
          · obtain ⟨hcp, hcs⟩ := emitSeqWith_parent_seq _ _ _ _ _ c hl
              (fun _ _ _ => rfl) (fun _ _ _ => rfl)
            rw [hp] at hcp
            refine ⟨_, _, rfl, (Option.some.inj hcp).symm, rfl, ?_⟩
            simp only []
            omega
          · cases hl
        · split at hrr
          · split at hrr
            · split at hrr
              · cases hrr
              · obtain ⟨hcp, hcs⟩ := emitSeqWith_parent_seq _ _ _ _ _ c hrr
                  (fun _ _ _ => rfl) (fun _ _ _ => rfl)
                rw [hp] at hcp
                refine ⟨_, _, rfl, (Option.some.inj hcp).symm, rfl, ?_⟩
                simp only []
                omega
            · cases hrr
          · cases hrr
  · rw [if_pos hm] at hok
    simp only [Except.pure, Except.ok.injEq] at hok
    have he : _ = evs := congrArg Prod.snd hok
    subst he
    intro c hc p hp
    rcases List.mem_cons.1 hc with h | h
    · subst h
      cases hp
    · cases h


lemma processRows_acc (display : Bool) :
    ∀ (rows : List (List Str)) (st st' : EmitState) (evs : List Event),
      processRows display st rows = .ok (st', evs) →
      evs.map Event.seq = List.range' st.next_seq evs.length ∧
      evs.map Event.id = (List.range' st.next_msg evs.length).map mkId ∧
      st'.next_seq = st.next_seq + evs.length ∧
      st'.next_msg = st.next_msg + evs.length ∧
      ∀ c ∈ evs, ∀ p, getParent c = some p →
        ∃ r, r ∈ evs ∧ r.id = p ∧ r.kind = .http_response ∧
          r.seq < c.seq := by
  intro rows
  induction rows with
  | nil =>
    intro st st' evs hok
    simp only [processRows, Except.ok.injEq, Prod.mk.injEq] at hok
    rcases hok with ⟨h1, h2⟩
    subst h1
    subst h2
    simp [List.range']
  | cons r rs ih =>
    intro st st' evs hok
    simp only [processRows, Bind.bind] at hok
    rcases h1 : processRow display st r with e | a <;> rw [h1] at hok
    · simp [Except.bind] at hok
    simp only [Except.bind] at hok
    rcases h2 : processRows display a.1 rs with e | b <;> rw [h2] at hok
    · simp [Except.bind] at hok
    simp only [Except.bind, pure, Except.pure, Except.ok.injEq] at hok
    have hs : _ = st' := congrArg Prod.fst hok
    have he : _ = evs := congrArg Prod.snd hok
    subst hs
    subst he
    obtain ⟨q1, q2, q3, q4⟩ :=
      processRow_counters display st r a.1 a.2 (by rw [h1])
    obtain ⟨w1, w2, w3, w4, w5⟩ := ih a.1 b.1 b.2 h2
    have hpar := processRow_parent display st r a.1 a.2 (by rw [h1])
    refine ⟨?_, ?_, ?_, ?_, ?_⟩
    · show List.map Event.seq (a.2 ++ b.2) =
        List.range' st.next_seq (a.2 ++ b.2).length
      rw [List.map_append, q1, w1, q3]
      have happ := List.range'_append st.next_seq a.2.length b.2.length 1
      simp only [one_mul] at happ
      rw [happ]
      simp only [List.length_append]
      congr 1
      omega
    · show List.map Event.id (a.2 ++ b.2) =
        List.map mkId (List.range' st.next_msg (a.2 ++ b.2).length)
      rw [List.map_append, q2, w2, q4]
      have happ := List.range'_append st.next_msg a.2.length b.2.length 1
      simp only [one_mul] at happ
      rw [← List.map_append, happ]
      simp only [List.length_append]
      congr 2
      omega
    · show b.1.next_seq = st.next_seq + (a.2 ++ b.2).length
      simp only [List.length_append]
      omega
    · show b.1.next_msg = st.next_msg + (a.2 ++ b.2).length
      simp only [List.length_append]
      omega
    · intro c hc p hp
      rcases List.mem_append.1 hc with h | h
      · obtain ⟨r0, rest0, hre, hid, hkind, hlt⟩ := hpar c h p hp
        exact ⟨r0, List.mem_append_left _ (hre ▸ List.mem_cons_self _ _),
          hid, hkind, hlt⟩
      · obtain ⟨r0, hmem, hid, hkind, hlt⟩ := w5 c h p hp
        exact ⟨r0, List.mem_append_right _ hmem, hid, hkind, hlt⟩


/-- C2: over any successful run, the `seq` values of the emitted events
are exactly 0,1,2,... in emission order, and every event whose
`links.parent` names an `http_response`'s id has a strictly larger `seq`
than that response. -/
theorem c2_seq_contiguous (display : Bool) (rows : List (List Str))
    (evs : List Event) (hok : emitRun display rows = .ok evs) :
    evs.map Event.seq = List.range evs.length ∧
    ∀ r ∈ evs, ∀ c ∈ evs, r.kind = .http_response →
      getParent c = some r.id → r.seq < c.seq := by
  unfold emitRun at hok
  rcases hpr : processRows display initState rows with e | p <;>
    rw [hpr] at hok
  · simp [Except.map] at hok
  simp only [Except.map, Except.ok.injEq] at hok
  subst hok
  obtain ⟨w1, w2, _, _, w5⟩ :=
    processRows_acc display rows initState p.1 p.2 (by rw [hpr])
  constructor
  · rw [w1, List.range_eq_range']
    rfl
  · intro r hr c hc hkind hp
    obtain ⟨r', hr', hid, _, hlt⟩ := w5 c hc r.id hp
    have hnd : (p.2.map Event.id).Nodup := by
      rw [w2]
      exact (List.nodup_range' _ _).map mkId_inj
    have : r' = r := List.inj_on_of_nodup_map hnd hr' hr hid
    rw [← this]
    exact hlt

/-- Witness for C2 on a concrete request/response/SSE run. -/
theorem c2_seq_contiguous_inst :
    c2evs.map Event.seq = List.range c2evs.length ∧
    ∀ r ∈ c2evs, ∀ c ∈ c2evs, r.kind = .http_response →
      getParent c = some r.id → r.seq < c.seq :=
  c2_seq_contiguous false c2rows c2evs rfl


lemma isPrefixOf_length_le (sep s : Str) (h : sep.isPrefixOf s = true) :
    sep.length ≤ s.length :=
  (List.isPrefixOf_iff_prefix.1 h).length_le

lemma isPrefixOf_append_self (sep t : Str) : sep.isPrefixOf (sep ++ t) = true :=
  List.isPrefixOf_iff_prefix.2 (List.prefix_append sep t)

lemma isPrefixOf_cons_ne (c0 : Char) (sep' : Str) (d : Char) (rest : Str)
    (h : c0 ≠ d) : (c0 :: sep').isPrefixOf (d :: rest) = false := by
  simp [List.isPrefixOf, h]

lemma findSub_none_of_head (sep s : Str) (c0 : Char)
    (hhd : sep.head? = some c0) (hn : c0 ∉ s) : findSub sep s = none := by
  induction s with
  | nil =>
    cases sep with
    | nil => cases hhd
    | cons a as => rfl
  | cons d rest ih =>
    cases sep with
    | nil => cases hhd
    | cons a as =>
      have ha : a = c0 := by simpa using hhd
      subst ha
      have hne : a ≠ d := fun h => hn (h ▸ List.mem_cons_self d rest)
      simp only [findSub, isPrefixOf_cons_ne a as d rest hne,
        Bool.false_eq_true, if_false]
      rw [ih (fun hm => hn (List.mem_cons_of_mem d hm))]
      rfl
  
lemma findSub_append_exact (sep a t : Str) (c0 : Char)
    (hhd : sep.head? = some c0) (hn : c0 ∉ a)
    (hpre : sep.isPrefixOf t = true) :
    findSub sep (a ++ t) = some a.length := by
  induction a with
  | nil =>
    cases sep with
    | nil => cases hhd
    | cons x xs =>
      cases t with
      | nil => cases hpre
      | cons y ys =>
        simp only [List.nil_append, findSub, hpre, if_true, List.length_nil]
  | cons d rest ih =>
    cases sep with
    | nil => cases hhd
    | cons x xs =>
      have hx : x = c0 := by simpa using hhd
      subst hx
      have hne : x ≠ d := fun h => hn (h ▸ List.mem_cons_self d rest)
      simp only [List.cons_append, findSub, List.append_eq,
        isPrefixOf_cons_ne x xs d (rest ++ t) hne, Bool.false_eq_true,
        if_false]
      rw [ih (fun hm => hn (List.mem_cons_of_mem d hm))]
      rfl

lemma findSub_none_of_short (sep s : Str) (h : s.length < sep.length) :
    findSub sep s = none := by
  induction s with
  | nil =>
    cases sep with
    | nil => simp at h
    | cons a as => rfl
  | cons d rest ih =>
    have hpre : sep.isPrefixOf (d :: rest) = false := by
      by_contra hc
      have := isPrefixOf_length_le sep (d :: rest)
        (by simpa using Bool.of_not_eq_false hc)
      omega
    simp only [findSub, hpre, Bool.false_eq_true, if_false]
    rw [ih (by simp at h ⊢; omega)]
    rfl

lemma findSub_le (sep s : Str) :
    ∀ i, findSub sep s = some i → i + sep.length ≤ s.length := by
  induction s with
  | nil =>
    intro i h
    by_cases hs : sep.isEmpty
    · simp only [findSub, hs, if_true, Option.some.injEq] at h
      subst h
      simp [List.isEmpty_iff] at hs
      simp [hs]
    · simp only [findSub, hs, Bool.false_eq_true, if_false] at h
      cases h
  | cons d rest ih =>
    intro i h
    by_cases hp : sep.isPrefixOf (d :: rest) = true
    · simp only [findSub, hp, if_true, Option.some.injEq] at h
      subst h
      simpa using isPrefixOf_length_le _ _ hp
    · simp only [findSub, hp, Bool.false_eq_true, if_false] at h
      rcases ho : findSub sep rest with _ | j <;> rw [ho] at h
      · cases h
      · simp only [Option.map_some', Option.some.injEq] at h
        subst h
        have := ih j ho
        simp only [List.length_cons]
        omega

lemma splitSubF_fuel (sep : Str) (hsep : ¬sep.isEmpty) :
    ∀ f1 f2 s, s.length < f1 → s.length < f2 →
      splitSubF f1 sep s = splitSubF f2 sep s := by
  intro f1
  induction f1 with
  | zero => intro f2 s h1; omega
  | succ f1 ih =>
    intro f2 s h1 h2
    cases f2 with
    | zero => omega
    | succ f2 =>
      rcases ho : findSub sep s with _ | i
      · simp only [splitSubF, ho]
      · have hle := findSub_le sep s i ho
        have hpos : 1 ≤ sep.length := by
          cases sep with
          | nil => simp at hsep
          | cons a as => simp
        have hlen : (s.drop (i + sep.length)).length < f1 := by
          simp only [List.length_drop]
          omega
        have hlen2 : (s.drop (i + sep.length)).length < f2 := by
          simp only [List.length_drop]
          omega
        simp only [splitSubF, ho]
        rw [ih f2 _ hlen hlen2]

lemma splitSub_step (sep s : Str) (hsep : ¬sep.isEmpty) :
    splitSub sep s =
      match findSub sep s with
      | none => [s]
      | some i => s.take i :: splitSub sep (s.drop (i + sep.length)) := by
  rcases ho : findSub sep s with _ | i
  · show splitSub sep s = [s]
    simp only [splitSub, hsep, Bool.false_eq_true, if_false, splitSubF, ho]
  · have hle := findSub_le sep s i ho
    have hpos : 1 ≤ sep.length := by
      cases sep with
      | nil => simp at hsep
      | cons a as => simp
    show splitSub sep s = s.take i :: splitSub sep (s.drop (i + sep.length))
    have h1 : splitSub sep s =
        s.take i :: splitSubF s.length sep (s.drop (i + sep.length)) := by
      simp only [splitSub, hsep, Bool.false_eq_true, if_false, splitSubF, ho]
    rw [h1]
    congr 1
    have h2 : splitSub sep (s.drop (i + sep.length)) =
        splitSubF ((s.drop (i + sep.length)).length + 1) sep
          (s.drop (i + sep.length)) := by
      simp only [splitSub, hsep, Bool.false_eq_true, if_false]
    rw [h2]
    apply splitSubF_fuel sep hsep
    · simp only [List.length_drop]
      omega
    · simp only [List.length_drop]
      omega

lemma splitSub_of_findSub_none (sep s : Str) (hsep : ¬sep.isEmpty)
    (h : findSub sep s = none) : splitSub sep s = [s] := by
  rw [splitSub_step sep s hsep, h]

lemma splitSub_sandwich (sep a t : Str) (c0 : Char)
    (hhd : sep.head? = some c0) (hna : c0 ∉ a) :
    splitSub sep (a ++ sep ++ t) = a :: splitSub sep t := by
  have hsep : ¬sep.isEmpty := by
    cases sep with
    | nil => cases hhd
    | cons x xs => simp
  rw [splitSub_step sep _ hsep]
  rw [List.append_assoc]
  rw [findSub_append_exact sep a (sep ++ t) c0 hhd hna
    (isPrefixOf_append_self sep t)]
  have h1 : List.take a.length (a ++ (sep ++ t)) = a := List.take_left a _
  have h2 : List.drop (a.length + sep.length) (a ++ (sep ++ t)) = t := by
    rw [← List.append_assoc, ← List.length_append a sep]
    exact List.drop_left (a ++ sep) t
  show List.take a.length (a ++ (sep ++ t)) ::
      splitSub sep (List.drop (a.length + sep.length) (a ++ (sep ++ t))) =
    a :: splitSub sep t
  rw [h1, h2]

lemma dropWhile_eq_self_head (p : Char → Bool) (s : Str)
    (h : ∀ c, s.head? = some c → p c = false) :
    s.dropWhile p = s := by
  cases s with
  | nil => rfl
  | cons c t => simp [List.dropWhile_cons, h c rfl]

lemma stripP_eq_self (p : Char → Bool) (s : Str)
    (hh : ∀ c, s.head? = some c → p c = false)
    (hl : ∀ c, s.getLast? = some c → p c = false) :
    stripP p s = s := by
  unfold stripP
  rw [dropWhile_eq_self_head p s hh]
  rw [dropWhile_eq_self_head p s.reverse
    (fun c hc => hl c (by rwa [List.head?_reverse] at hc))]
  exact List.reverse_reverse s

lemma stripP_eq_self_of_all (p : Char → Bool) (s : Str)
    (h : ∀ c ∈ s, p c = false) : stripP p s = s :=
  stripP_eq_self p s
    (fun c hc => h c (List.mem_of_mem_head? (by rw [hc]; exact rfl)))
    (fun c hc => h c (by
      have := List.head?_reverse s
      rw [← this] at hc
      exact (List.mem_reverse).1 (List.mem_of_mem_head? (by
        rw [hc]; exact rfl))))

lemma takeWhile_all (p : Char → Bool) (s : Str)
    (h : ∀ c ∈ s, p c = true) : s.takeWhile p = s := by
  induction s with
  | nil => rfl
  | cons c t ih =>
    rw [List.takeWhile_cons, if_pos (h c (List.mem_cons_self c t))]
    rw [ih (fun d hd => h d (List.mem_cons_of_mem c hd))]

lemma replaceCRLF_eq_self (s : Str) (h : '\r' ∉ s) : replaceCRLF s = s := by
  induction s with
  | nil => rfl
  | cons c t ih =>
    cases t with
    | nil => rfl
    | cons c2 rest =>
      have hc : ¬(c = '\r' ∧ c2 = '\n') := by
        rintro ⟨h1, _⟩
        exact h (h1 ▸ List.mem_cons_self c _)
      simp only [replaceCRLF, if_neg hc]
      rw [ih (fun hm => h (List.mem_cons_of_mem c hm))]

lemma mem_of_getLast?' {l : Str} {a : Char} (h : l.getLast? = some a) :
    a ∈ l := by
  rw [List.getLast?_eq_head?_reverse] at h
  exact (List.mem_reverse).1 (List.mem_of_mem_head? (by rw [h]; exact rfl))

lemma data_block_strip (d : Str) (hd : d ≠ [])
    (hw : ∀ c ∈ d, pyIsSpace c = false) (p : Char → Bool)
    (hp : p 'd' = false) (hps : ∀ c, pyIsSpace c = false → p c = false) :
    stripP p (str "data: " ++ d) = str "data: " ++ d := by
  apply stripP_eq_self
  · intro c hc
    have h' : 'd' = c := by simpa [str] using hc
    rw [← h']
    exact hp
  · intro c hc
    rw [List.getLast?_append] at hc
    rcases hgl : d.getLast? with _ | c'
    · exact absurd hgl (by simp [List.getLast?_eq_none_iff, hd])
    · rw [hgl] at hc
      simp only [Option.or_some, Option.some.injEq] at hc
      subst hc
      exact hps c' (hw c' (mem_of_getLast?' hgl))

lemma sseBlock_data (d : Str) (hd : d ≠ [])
    (hw : ∀ c ∈ d, pyIsSpace c = false) :
    sseBlock (str "data: " ++ d) = some ⟨none, none, none, d⟩ := by
  have hnl : stripP (fun c => c = '\n') (str "data: " ++ d) =
      str "data: " ++ d := by
    apply data_block_strip d hd hw
    · rfl
    · intro c hcs
      by_cases h : c = '\n'
      · subst h
        simp [pyIsSpace] at hcs
      · simp [h]
  have hstrip : pyStrip (str "data: " ++ d) = str "data: " ++ d := by
    apply data_block_strip d hd hw
    · rfl
    · intro c hcs
      exact hcs
  have hnempty : (str "data: " ++ d).isEmpty = false := rfl
  have hlines : splitSub (str "\n") (str "data: " ++ d) =
      [str "data: " ++ d] := by
    apply splitSub_of_findSub_none _ _ (by decide)
    apply findSub_none_of_head (str "\n") _ '\n' rfl
    intro hmem
    rcases List.mem_append.1 hmem with h | h
    · simp [str] at h
    · have := hw _ h
      simp [pyIsSpace] at this
  have hv : pyLstrip (' ' :: d) = d := by
    show List.dropWhile pyIsSpace (' ' :: d) = d
    rw [List.dropWhile_cons, if_pos (show pyIsSpace ' ' = true from rfl)]
    apply dropWhile_eq_self_head
    intro c hc
    exact hw c (List.mem_of_mem_head? (by rw [hc]; exact rfl))
  have hfold : sseLine ⟨none, none, none, []⟩ (str "data: " ++ d) =
      ⟨none, none, none, [d]⟩ := by
    show sseLine ⟨none, none, none, []⟩ (str "data: " ++ d) = _
    unfold sseLine
    rw [if_neg (by simp [str]), if_neg (by simp [str]),
      if_neg (by
        have : ':' ∈ str "data: " ++ d :=
          List.mem_append_left _ (by simp [str])
        have h2 : List.contains (str "data: " ++ d) ':' = true :=
          List.elem_eq_true_of_mem this
        simp [List.contains] at h2
        simp [List.contains, h2])]
    have hkv : splitOnceChar ':' (str "data: " ++ d) =
        (str "data", ' ' :: d) := rfl
    rw [hkv]
    simp only []
    rw [show pyStrip (str "data") = str "data" from rfl]
    rw [if_neg (by decide), if_neg (by decide), if_neg (by decide),
      if_pos rfl]
    simp [hv]
  unfold sseBlock
  rw [hnl]
  simp only [hstrip, hnempty, Bool.false_eq_true, if_false, hlines,
    List.foldl_cons, List.foldl_nil, hfold]
  have hjoin : List.intercalate (str "\n") [d] = d := by
    simp [List.intercalate]
  rw [hjoin]
  rw [if_pos (by left; simp [hd])]


lemma parseSse_two (d1 d2 : Str) (h1 : d1 ≠ []) (h2 : d2 ≠ [])
    (hw1 : ∀ c ∈ d1, pyIsSpace c = false)
    (hw2 : ∀ c ∈ d2, pyIsSpace c = false) :
    parseSseEvents
        ((str "data: " ++ d1) ++ str "\n\n" ++ (str "data: " ++ d2)) =
      [⟨none, none, none, d1⟩, ⟨none, none, none, d2⟩] := by
  have hcr : ∀ (d : Str), (∀ c ∈ d, pyIsSpace c = false) →
      '\r' ∉ str "data: " ++ d := by
    intro d hw hm
    rcases List.mem_append.1 hm with h | h
    · simp [str] at h
    · have := hw _ h
      simp [pyIsSpace] at this
  have hnr : '\r' ∉ (str "data: " ++ d1) ++ str "\n\n" ++ (str "data: " ++ d2) := by
    intro hm
    rcases List.mem_append.1 hm with h | h
    · rcases List.mem_append.1 h with h' | h'
      · exact hcr d1 hw1 h'
      · simp [str] at h'
    · exact hcr d2 hw2 h
  have hna : '\n' ∉ str "data: " ++ d1 := by
    intro hm
    rcases List.mem_append.1 hm with h | h
    · simp [str] at h
    · have := hw1 _ h
      simp [pyIsSpace] at this
  have hnt : findSub (str "\n\n") (str "data: " ++ d2) = none := by
    apply findSub_none_of_head (str "\n\n") _ '\n' rfl
    intro hm
    rcases List.mem_append.1 hm with h | h
    · simp [str] at h
    · have := hw2 _ h
      simp [pyIsSpace] at this
  unfold parseSseEvents
  rw [replaceCRLF_eq_self _ hnr]
  rw [splitSub_sandwich (str "\n\n") (str "data: " ++ d1)
    (str "data: " ++ d2) '\n' rfl hna]
  rw [splitSub_of_findSub_none _ _ (by decide) hnt]
  simp only [List.filterMap_cons, sseBlock_data d1 h1 hw1,
    sseBlock_data d2 h2 hw2, List.filterMap_nil]


lemma getLast?_append_right (u v : Str) (hv : v ≠ []) :
    (u ++ v).getLast? = v.getLast? := by
  rw [List.getLast?_append]
  rcases h : v.getLast? with _ | c
  · exact absurd h (by simp [List.getLast?_eq_none_iff, hv])
  · rfl

/-- C8: a response whose media type is exactly text/event-stream, with a
captured non-redacted body of two SSE events separated by a blank line,
each with one data line, yields exactly two `sse_event` records, each
with `links.parent` equal to the response's id and `data` equal to the
value of its data line. -/
theorem c8_sse_roundtrip (display : Bool) (st : EmitState) (d1 d2 : Str)
    (h1 : d1 ≠ []) (h2 : d2 ≠ [])
    (hw1 : ∀ c ∈ d1, pyIsSpace c = false)
    (hw2 : ∀ c ∈ d2, pyIsSpace c = false) :
    ∃ st' r e1 e2,
      processRow display st (sseRow d1 d2) = .ok (st', [r, e1, e2]) ∧
      r.kind = .http_response ∧ e1.kind = .sse_event ∧
      e2.kind = .sse_event ∧
      (e1.links.map Links.parent) = some (some r.id) ∧
      (e2.links.map Links.parent) = some (some r.id) ∧
      (e1.payload.map Payload.data) = some d1 ∧
      (e2.payload.map Payload.data) = some d2 := by
  have hfd : rowGet (sseRow d1 d2) 18 =
      (str "data: " ++ d1) ++ str "\n\n" ++ (str "data: " ++ d2) := by
    show pyStrip ((str "data: " ++ d1) ++ str "\n\n" ++
      (str "data: " ++ d2)) = _
    apply stripP_eq_self
    · intro c hc
      have h' : 'd' = c := by simpa [str] using hc
      rw [← h']
      rfl
    · intro c hc
      have hc' : ((str "data: " ++ d1) ++ str "\n\n" ++
          (str "data: " ++ d2)).getLast? = some c := hc
      rw [getLast?_append_right _ _ (by simp [str]),
        getLast?_append_right _ _ h2] at hc'
      exact hw2 c (mem_of_getLast?' hc')
  have hstep : processRow display st (sseRow d1 d2) =
      .ok (responseStep display st (-1) []
        ⟨str "tcp", (-1 : Int) ⊔ 0, some ⟨⟨str "0.0.0.0", 0⟩, ⟨str "0.0.0.0", 0⟩⟩⟩
        ⟨str "0.0.0.0", 0⟩ ⟨str "0.0.0.0", 0⟩
        (str "200") [] [] [] (str "text/event-stream") [] []
        (rowGet (sseRow d1 d2) 18) 200) := rfl
  rw [hfd] at hstep
  simp only [responseStep] at hstep
  rw [show normalizeContentType (str "text/event-stream") =
    str "text/event-stream" from rfl] at hstep
  rw [show classifyPayloadKind (str "text/event-stream") =
    PayloadKind.text from rfl] at hstep
  rw [parseSse_two d1 d2 h1 h2 hw1 hw2] at hstep
  rw [if_pos ⟨rfl, by simp [List.isEmpty_iff, str], by simp⟩] at hstep
  rw [if_neg (by
    rintro ⟨hpre, _⟩
    exact absurd hpre (by decide))] at hstep
  simp only [emitSeqWith, List.append_nil] at hstep
  exact ⟨_, _, _, _, hstep, rfl, rfl, rfl, rfl, rfl, rfl, rfl⟩


/-- Witness for C8 at the body "data: hello\n\ndata: world". -/
theorem c8_sse_roundtrip_inst :
    ∃ st' r e1 e2,
      processRow false initState (sseRow (str "hello") (str "world")) =
        .ok (st', [r, e1, e2]) ∧
      r.kind = .http_response ∧ e1.kind = .sse_event ∧
      e2.kind = .sse_event ∧
      (e1.links.map Links.parent) = some (some r.id) ∧
      (e2.links.map Links.parent) = some (some r.id) ∧
      (e1.payload.map Payload.data) = some (str "hello") ∧
      (e2.payload.map Payload.data) = some (str "world") :=
  c8_sse_roundtrip false initState (str "hello") (str "world") (by decide)
    (by decide) (by decide) (by decide)


lemma splitSub_cons_self (sep t : Str) (c0 : Char)
    (hhd : sep.head? = some c0) : splitSub sep (sep ++ t) = [] :: splitSub sep t := by
  have h := splitSub_sandwich sep [] t c0 hhd (by simp)
  simpa using h

lemma mpChunk_keep (b p : Str) (hp : p ≠ [])
    (hc : ∀ c ∈ p, pyIsSpace c = false ∧ c ≠ '-') :
    mpChunk b p = some ([], p) := by
  obtain ⟨d, rest, hcons⟩ : ∃ d rest, p = d :: rest := by
    cases p with
    | nil => exact absurd rfl hp
    | cons d rest => exact ⟨d, rest, rfl⟩
  have hstrip : pyStrip p = p :=
    stripP_eq_self_of_all _ _ (fun c hcm => (hc c hcm).1)
  unfold mpChunk
  rw [hstrip]
  rw [if_neg ?hdiscard]
  case hdiscard =>
    rintro (hne | hdd | hed)
    · rw [hcons] at hne
      simp at hne
    · have : '-' ∈ p := by rw [hdd]; simp [str]
      exact (hc '-' this).2 rfl
    · have hedp : pyStrip (str "--" ++ b ++ str "--") =
          str "--" ++ b ++ str "--" := by
        apply stripP_eq_self
        · intro c hcc
          have h' : '-' = c := by simpa [str] using hcc
          rw [← h']
          rfl
        · intro c hcc
          rw [getLast?_append_right _ _ (by simp [str])] at hcc
          have h' : '-' = c := by simpa [str] using hcc
          rw [← h']
          rfl
      rw [hedp] at hed
      have : '-' ∈ p := by
        rw [hed]
        exact List.mem_append_left _ (List.mem_append_left _ (by simp [str]))
      exact (hc '-' this).2 rfl
  rw [if_neg ?hpre]
  case hpre =>
    rw [hcons]
    have hne : '-' ≠ d := by
      intro h
      exact (hc d (by rw [hcons]; exact List.mem_cons_self d rest)).2 h.symm
    have heq : (str "--").isPrefixOf (d :: rest) =
        ('-' :: ['-']).isPrefixOf (d :: rest) := rfl
    rw [heq, isPrefixOf_cons_ne '-' ['-'] d rest hne]
    simp
  have hno1 : hasSub (str "\r\n\r\n") p = false := by
    unfold hasSub
    rw [findSub_none_of_head (str "\r\n\r\n") p '\r' rfl]
    · rfl
    · intro hm
      have := (hc '\r' hm).1
      simp [pyIsSpace] at this
  have hno2 : hasSub (str "\n\n") p = false := by
    unfold hasSub
    rw [findSub_none_of_head (str "\n\n") p '\n' rfl]
    · rfl
    · intro hm
      have := (hc '\n' hm).1
      simp [pyIsSpace] at this
  rw [hno1, hno2]
  simp only [Bool.false_eq_true, if_false]
  have hbody : stripP (fun c => c = '\r' || c = '\n') p = p := by
    apply stripP_eq_self_of_all
    intro c hcm
    have h1 := (hc c hcm).1
    by_cases hr : c = '\r'
    · subst hr
      simp [pyIsSpace] at h1
    by_cases hn : c = '\n'
    · subst hn
      simp [pyIsSpace] at h1
    simp [hr, hn]
  rw [hbody]
  rfl


lemma splitMultipart_two (b p1 p2 : Str) (hb : b ≠ [])
    (hc1 : ∀ c ∈ p1, pyIsSpace c = false ∧ c ≠ '-') (hp1 : p1 ≠ [])
    (hc2 : ∀ c ∈ p2, pyIsSpace c = false ∧ c ≠ '-') (hp2 : p2 ≠ []) :
    splitMultipart (mpBody b p1 p2) b = [([], p1), ([], p2)] := by
  have hhd : (str "--" ++ b).head? = some '-' := rfl
  have hn1 : '-' ∉ p1 := fun hm => (hc1 '-' hm).2 rfl
  have hn2 : '-' ∉ p2 := fun hm => (hc2 '-' hm).2 rfl
  have hlen : (str "--").length < (str "--" ++ b).length := by
    cases b with
    | nil => exact absurd rfl hb
    | cons x xs => simp [str]
  unfold splitMultipart mpBody
  rw [splitSub_cons_self _ _ '-' hhd]
  rw [splitSub_sandwich _ _ _ '-' hhd hn1]
  rw [splitSub_sandwich _ _ _ '-' hhd hn2]
  rw [splitSub_of_findSub_none _ _
    (by cases b with
      | nil => exact absurd rfl hb
      | cons x xs => simp [str])
    (findSub_none_of_short _ _ hlen)]
  simp only [List.filterMap_cons, mpChunk_keep b p1 hp1 hc1,
    mpChunk_keep b p2 hp2 hc2]
  rw [show mpChunk b [] = none from rfl]
  rw [show mpChunk b (str "--") = none from rfl]
  rfl


lemma extractBoundary_ct (b : Str) (hb : b ≠ [])
    (hbc : ∀ c ∈ b, pyIsSpace c = false ∧ c ≠ '-' ∧ c ≠ '"' ∧ c ≠ ';') :
    extractBoundary (str "multipart/mixed; boundary=" ++ b) = some b := by
  have hafter : boundaryAfterEq b = some b := by
    obtain ⟨c, bt, hcons⟩ : ∃ c bt, b = c :: bt := by
      cases b with
      | nil => exact absurd rfl hb
      | cons c bt => exact ⟨c, bt, rfl⟩
    unfold boundaryAfterEq
    rw [if_neg (by
      rw [hcons]
      simp only [List.head?_cons, Option.some.injEq]
      exact (hbc c (by rw [hcons]; exact List.mem_cons_self c bt)).2.2.1)]
    rw [takeWhile_all _ _ (fun d hd => by
      have h := hbc d hd
      simp [ctValidBChar, h.2.2.1, h.2.2.2])]
    rw [if_neg (by simp [List.isEmpty_iff, hb])]
  have hscan : scanBoundary (str "multipart/mixed; boundary=" ++ b) =
      some b := by
    rw [show scanBoundary (str "multipart/mixed; boundary=" ++ b) =
      (match boundaryAfterEq b with
       | some r => some r
       | none => scanBoundary (str "oundary=" ++ b)) from rfl]
    rw [hafter]
  unfold extractBoundary
  rw [if_neg (by
    rw [show List.isEmpty (str "multipart/mixed; boundary=" ++ b) = false
      from rfl]
    simp)]
  rw [hscan]
  simp only [Option.map_some', Option.some.injEq]
  exact stripP_eq_self_of_all _ _ (fun c hm => (hbc c hm).1)


/-- C9: a multipart body with boundary `b` containing two parts
separated by `--b` and closed by `--b--` splits (after the discard
rules for empty, `--`, closing-delimiter and `--`-led chunks) into
exactly those two parts, and the emitter produces exactly two
`multipart_part` records with part_index 0 and 1, each linked to the
response. -/
theorem c9_multipart_roundtrip (display : Bool) (st : EmitState)
    (b p1 p2 : Str) (hb : b ≠ [])
    (hbc : ∀ c ∈ b, pyIsSpace c = false ∧ c ≠ '-' ∧ c ≠ '"' ∧ c ≠ ';')
    (hp1 : p1 ≠ []) (hc1 : ∀ c ∈ p1, pyIsSpace c = false ∧ c ≠ '-')
    (hp2 : p2 ≠ []) (hc2 : ∀ c ∈ p2, pyIsSpace c = false ∧ c ≠ '-') :
    splitMultipart (mpBody b p1 p2) b = [([], p1), ([], p2)] ∧
    ∃ st' r e1 e2,
      processRow display st (mpRow b p1 p2) = .ok (st', [r, e1, e2]) ∧
      r.kind = .http_response ∧ e1.kind = .multipart_part ∧
      e2.kind = .multipart_part ∧ partIndexOf e1 = some 0 ∧
      partIndexOf e2 = some 1 ∧
      (e1.links.map Links.parent) = some (some r.id) ∧
      (e2.links.map Links.parent) = some (some r.id) := by
  have hsplit := splitMultipart_two b p1 p2 hb hc1 hp1 hc2 hp2
  refine ⟨hsplit, ?_⟩
  have hct : rowGet (mpRow b p1 p2) 15 =
      str "multipart/mixed; boundary=" ++ b := by
    show pyStrip (str "multipart/mixed; boundary=" ++ b) = _
    apply stripP_eq_self
    · intro c hc
      have h' : 'm' = c := by simpa [str] using hc
      rw [← h']
      rfl
    · intro c hc
      rw [getLast?_append_right _ _ hb] at hc
      exact (hbc c (mem_of_getLast?' hc)).1
  have hfd : rowGet (mpRow b p1 p2) 18 = mpBody b p1 p2 := by
    show pyStrip (mpBody b p1 p2) = _
    apply stripP_eq_self
    · intro c hc
      have h' : '-' = c := by simpa [mpBody, str] using hc
      rw [← h']
      rfl
    · intro c hc
      unfold mpBody at hc
      rw [getLast?_append_right _ _ (by simp [str]),
        getLast?_append_right _ _ (by simp [str]),
        getLast?_append_right _ _ (by simp [str])] at hc
      have h' : '-' = c := by simpa [str] using hc
      rw [← h']
      rfl
  have hstep : processRow display st (mpRow b p1 p2) =
      .ok (responseStep display st (-1) []
        ⟨str "tcp", (-1 : Int) ⊔ 0,
          some ⟨⟨str "0.0.0.0", 0⟩, ⟨str "0.0.0.0", 0⟩⟩⟩
        ⟨str "0.0.0.0", 0⟩ ⟨str "0.0.0.0", 0⟩
        (str "200") [] [] [] (rowGet (mpRow b p1 p2) 15) [] []
        (rowGet (mpRow b p1 p2) 18) 200) := rfl
  rw [hct, hfd] at hstep
  have hstripct : pyStrip (str "multipart/mixed; boundary=" ++ b) =
      str "multipart/mixed; boundary=" ++ b := hct
  have hnorm : normalizeContentType (str "multipart/mixed; boundary=" ++ b) =
      str "multipart/mixed" := by
    unfold normalizeContentType lowerStr
    rw [hstripct, List.map_append,
      show List.map Char.toLower (str "multipart/mixed; boundary=") =
        str "multipart/mixed; boundary=" from rfl]
    rw [if_pos (List.elem_eq_true_of_mem
      (List.mem_append_left _ (by simp [str])))]
    rw [show beforeChar ';' (str "multipart/mixed; boundary=" ++
      List.map Char.toLower b) = str "multipart/mixed" from rfl]
    rfl
  have hclass : classifyPayloadKind (str "multipart/mixed; boundary=" ++ b) =
      PayloadKind.binary := by
    unfold classifyPayloadKind
    rw [hnorm]
    rfl
  simp only [responseStep] at hstep
  rw [hnorm, hclass] at hstep
  rw [if_neg (by
    rintro ⟨h, _⟩
    exact absurd h (by decide))] at hstep
  rw [if_pos ⟨by decide, by
    rw [show List.isEmpty (mpBody b p1 p2) = false from by
      unfold mpBody
      cases b with
      | nil => exact absurd rfl hb
      | cons x xs => rfl]
    simp⟩] at hstep
  simp only [extractBoundary_ct b hb hbc] at hstep
  rw [if_neg (by simp [List.isEmpty_iff, hb])] at hstep
  rw [hsplit] at hstep
  simp only [List.enum, List.enumFrom, emitSeqWith, List.nil_append,
    List.append_nil] at hstep
  exact ⟨_, _, _, _, hstep, rfl, rfl, rfl, rfl, rfl, rfl, rfl⟩


/-- Witness for C9 at boundary "X" with parts "hello" and "world". -/
theorem c9_multipart_roundtrip_inst :
    splitMultipart (mpBody (str "X") (str "hello") (str "world"))
        (str "X") = [([], str "hello"), ([], str "world")] ∧
    ∃ st' r e1 e2,
      processRow false initState
          (mpRow (str "X") (str "hello") (str "world")) =
        .ok (st', [r, e1, e2]) ∧
      r.kind = .http_response ∧ e1.kind = .multipart_part ∧
      e2.kind = .multipart_part ∧ partIndexOf e1 = some 0 ∧
      partIndexOf e2 = some 1 ∧
      (e1.links.map Links.parent) = some (some r.id) ∧
      (e2.links.map Links.parent) = some (some r.id) :=
  c9_multipart_roundtrip false initState (str "X") (str "hello")
    (str "world") (by decide) (by decide) (by decide) (by decide)
    (by decide) (by decide)


end PV
